import Mathlib

/-!
Verification of `spotify_dashboard.py` (Spotify listening-history dashboard).

The file embeds the data-transformation logic of the dashboard as executable
Lean definitions and proves (or refutes) the specification's claims about it:
the history loader and its deduplication step, the catalog lookup, the session
cache around it, and the top-N aggregations feeding the presentation layer.

Pure library calls that the script merely forwards to (ISO-8601 timestamp
parsing, the HTTP transport) are abstracted as parameters; every piece of
logic written in the script itself is translated operation by operation.
-/

/-- A raw playback record as parsed from the Spotify history JSON export:
fields `endTime`, `artistName`, `trackName`, `msPlayed`. -/
structure RawRecord where
  endTime : String
  artistName : String
  trackName : String
  msPlayed : Int
deriving DecidableEq, Repr

/-- The subset key of `duplicated(subset=[endTime, artistName, trackName])`. -/
def keyTriple (r : RawRecord) : String × String × String :=
  (r.endTime, r.artistName, r.trackName)

/-- The table rows paired with their index labels: a fresh `pd.read_json`
table carries the default integer index 0, 1, 2, .... -/
def indexedRows (rows : List RawRecord) : List (Nat × RawRecord) :=
  rows.enum

/-- The selection `rep_data[rep_data.duplicated(subset=[endTime, artistName,
trackName], keep=False)]`: every row whose key triple occurs in at least two
rows of the table, keeping its original index label. -/
def dupRows (rows : List RawRecord) : List (Nat × RawRecord) :=
  (indexedRows rows).filter
    (fun p => decide (2 ≤ rows.countP (fun q => keyTriple q == keyTriple p.2)))

/-- The rows of one duplicate-key group, in index order (`groupby` keeps the
original relative order of the rows inside each group). -/
def groupRows (rows : List RawRecord) (k : String × String × String) :
    List (Nat × RawRecord) :=
  (dupRows rows).filter (fun p => keyTriple p.2 == k)

/-- `idxmin` over one group: the index label of the first row attaining the
group's minimal `msPlayed` (pandas `idxmin` returns the first occurrence of
the minimum). -/
def groupIdxmin (grp : List (Nat × RawRecord)) : Option Nat :=
  (grp.find? (fun p => grp.all (fun q => decide (p.2.msPlayed ≤ q.2.msPlayed)))).map
    Prod.fst

/-- The `msPlayed` column of
`min_duracion.groupby([artistName, trackName, endTime]).idxmin()`: one index
label per duplicate-key group.  pandas sorts the group keys; here the keys are
kept in first-occurrence order, which is immaterial because the column is only
ever consumed as a value set by `isin`. -/
def min_duracion (rows : List RawRecord) : List Nat :=
  (((dupRows rows).map (fun p => keyTriple p.2)).dedup).filterMap
    (fun k => groupIdxmin (groupRows rows k))

/-- The dropping step
`rep_data = rep_data[~rep_data.msPlayed.isin(min_duracion.msPlayed)]`.
As in the source, the `msPlayed` VALUES of the table are compared against the
INDEX LABELS held in `min_duracion`'s `msPlayed` column. -/
def dedupStep (rows : List RawRecord) : List RawRecord :=
  rows.filter
    (fun r => !(((min_duracion rows).map (fun (i : Nat) => (i : Int))).contains
      r.msPlayed))

/-- A preprocessed record: the four raw fields plus the derived `playDate` and
`minPlayed` columns added by the loader. -/
structure CleanRecord where
  endTime : String
  artistName : String
  trackName : String
  msPlayed : Int
  playDate : Int
  minPlayed : Int
deriving DecidableEq, Repr

/-- `load_history_file`: drops the rows selected by the dedup step, resets the
index, stores `pd.to_datetime(endTime, format=ISO8601)` in `playDate`, and
derives `minPlayed = msPlayed // 60000` (floor division).  Timestamp parsing
is pandas library code and is abstracted as the `parse` parameter; the claims
hold for every `parse`. -/
def load_history_file (parse : String → Int) (rows : List RawRecord) :
    List CleanRecord :=
  (dedupStep rows).map (fun r =>
    { endTime := r.endTime, artistName := r.artistName, trackName := r.trackName,
      msPlayed := r.msPlayed, playDate := parse r.endTime,
      minPlayed := r.msPlayed.fdiv 60000 })

/-- Declarative characterization of the `idxmin` selection, stated positionally
and independently of the grouping pipeline: position `i` holds a row belonging
to a duplicate-key group (group size at least 2), its `msPlayed` is minimal
among the rows with the same key triple, and no earlier position with the same
key attains that minimum. -/
def isFirstGroupMin (rows : List RawRecord) (i : Nat) : Bool :=
  match rows[i]? with
  | none => false
  | some r =>
    decide (2 ≤ rows.countP (fun q => keyTriple q == keyTriple r)) &&
    (indexedRows rows).all (fun p =>
      !(keyTriple p.2 == keyTriple r) ||
      (decide (r.msPlayed ≤ p.2.msPlayed) &&
        (!(decide (p.1 < i)) || decide (r.msPlayed < p.2.msPlayed))))

/-- The dedup step as the specification words it: compute the minimal
`msPlayed` VALUE of each duplicate-key group and drop every record of the
table whose `msPlayed` equals one of those minima.  Stated for comparison with
`dedupStep`, which is what the source actually does. -/
def specDedupByValue (rows : List RawRecord) : List RawRecord :=
  let groupMins : List Int :=
    (((dupRows rows).map (fun p => keyTriple p.2)).dedup).filterMap
      (fun k => ((groupRows rows k).map (fun p => p.2.msPlayed)).min?)
  rows.filter (fun r => !(groupMins.contains r.msPlayed))

/-- Artist metadata as consumed by the dashboard: `name`, image URLs in server
order, and the genre list. -/
structure ArtistMeta where
  name : String
  images : List String
  genres : List String
deriving DecidableEq, Repr

/-- The matching loop of `search_artist` over `response[artists][items]`: scan
the items in server-provided order, return the first whose `name` equals the
argument under plain string equality, and fall through to the empty dict
(modelled as `none`) when the loop finishes without a match. -/
def searchItems (artist_name : String) : List ArtistMeta → Option ArtistMeta
  | [] => none
  | art :: rest =>
      if art.name = artist_name then some art else searchItems artist_name rest

/-- `search_artist`: the HTTP transport is abstracted as the already-decoded
response body, `some items` when the body has the `artists.items` structure
and `none` when it lacks it (the error body of a failed or unauthorised
request).  Subscripting the latter raises `KeyError`, which the function does
not catch, modelled as `Except.error`; a well-formed body is scanned by the
matching loop. -/
def search_artist (artist_name : String) (response : Option (List ArtistMeta)) :
    Except String (Option ArtistMeta) :=
  match response with
  | none => Except.error "KeyError: artists"
  | some items => Except.ok (searchItems artist_name items)

/-- The session state maintained by the `st.cache_data` decorator on
`search_artist`: the memo table keyed by the function's argument, plus the log
of the artist names for which a network request was actually issued (one
request per underlying call). -/
structure CacheState where
  table : List (String × Except String (Option ArtistMeta))
  requestLog : List String

/-- The cache at session start, before any call. -/
def emptyCache : CacheState := ⟨[], []⟩

/-- One call to the cached `search_artist`, following `st.cache_data`
semantics: an argument already in the memo table returns the stored value and
issues no request; a fresh argument runs the wrapped function (issuing one
network request for its response) and memoises the result. -/
def cachedSearchArtist (fetch : String → Option (List ArtistMeta))
    (name : String) (s : CacheState) :
    Except String (Option ArtistMeta) × CacheState :=
  match s.table.lookup name with
  | some v => (v, s)
  | none =>
      let v := search_artist name (fetch name)
      (v, ⟨(name, v) :: s.table, name :: s.requestLog⟩)

/-- Runs a sequence of cached lookups within one session, returning the final
session state. -/
def runSearches (fetch : String → Option (List ArtistMeta)) :
    List String → CacheState → CacheState
  | [], s => s
  | n :: ns, s => runSearches fetch ns (cachedSearchArtist fetch n s).2

/-- Group keys of `groupby([artistName, trackName])`: the distinct
(artist, track) pairs.  pandas sorts the group keys; first-occurrence order is
used here, which can only affect the relative order of metric ties — the
source sorts the grouped table with `sort_values`, whose default quicksort
leaves tie order unspecified anyway. -/
def songKeys (data : List CleanRecord) : List (String × String) :=
  (data.map (fun r => (r.artistName, r.trackName))).dedup

/-- `groupby([artistName, trackName]).count()` for one group: its row count
(the counted `msPlayed` column has no missing values). -/
def songPlayCount (data : List CleanRecord) (k : String × String) : Nat :=
  data.countP (fun r => (r.artistName, r.trackName) == k)

/-- The `Top 10 canciones` table:
`groupby([artistName, trackName]).count().sort_values(msPlayed,
ascending=True).tail(10)` — the per-song play counts sorted in ASCENDING
order, keeping the last ten rows. -/
def top_songs (data : List CleanRecord) : List ((String × String) × Nat) :=
  let sorted := ((songKeys data).map (fun k => (k, songPlayCount data k))).insertionSort
    (fun x y => x.2 ≤ y.2)
  sorted.drop (sorted.length - 10)

/-- Distinct artist names, the group keys of `groupby([artistName])`. -/
def artistKeys (data : List CleanRecord) : List String :=
  (data.map (fun r => r.artistName)).dedup

/-- `groupby([artistName]).count()`: rows per artist. -/
def artistPlayCount (data : List CleanRecord) (a : String) : Nat :=
  data.countP (fun r => r.artistName == a)

/-- `drop(playDate).groupby([artistName]).sum()` restricted to the column the
ranking sorts on: total `msPlayed` per artist. -/
def artistTotalMs (data : List CleanRecord) (a : String) : Int :=
  ((data.filter (fun r => r.artistName == a)).map (fun r => r.msPlayed)).sum

/-- `drop_duplicates(subset=[trackName, artistName])` followed by
`groupby([artistName]).count()`: the number of distinct tracks per artist. -/
def artistDistinctTracks (data : List CleanRecord) (a : String) : Nat :=
  ((data.filter (fun r => r.artistName == a)).map (fun r => r.trackName)).dedup.length

/-- The `Por veces reproducido` ranking:
`groupby([artistName]).count().sort_values(msPlayed, ascending=False).head(10)`. -/
def top_artists_by_count (data : List CleanRecord) : List (String × Nat) :=
  (((artistKeys data).map (fun a => (a, artistPlayCount data a))).insertionSort
    (fun x y => y.2 ≤ x.2)).take 10

/-- The `Por tiempo de reproducción` ranking:
`groupby([artistName]).sum().sort_values(msPlayed, ascending=False).head(10)`. -/
def top_artists_by_time (data : List CleanRecord) : List (String × Int) :=
  (((artistKeys data).map (fun a => (a, artistTotalMs data a))).insertionSort
    (fun x y => y.2 ≤ x.2)).take 10

/-- The `Por canciones diferentes escuchadas` ranking:
`drop_duplicates(subset=[trackName, artistName]).groupby([artistName]).count()
.sort_values(msPlayed, ascending=False).head(10)`. -/
def top_artists_by_distinct (data : List CleanRecord) : List (String × Nat) :=
  (((artistKeys data).map (fun a => (a, artistDistinctTracks data a))).insertionSort
    (fun x y => y.2 ≤ x.2)).take 10

/-- The genre accumulation loop of the `Géneros preferidos` block: it iterates
over the `top_artists` table as left by its LAST reassignment — the
by-distinct-tracks ranking — and extends `generos` with each artist's genre
list (`search_artist(...)[genres]`, abstracted as `lookup`). -/
def generos (data : List CleanRecord) (lookup : String → List String) :
    List String :=
  (top_artists_by_distinct data).foldl (fun acc p => acc ++ lookup p.1) []

/-- The genre accumulation as the claim words it: over the artists of the
top-10-by-total-duration ranking.  Stated for comparison with `generos`. -/
def specGenerosByTime (data : List CleanRecord) (lookup : String → List String) :
    List String :=
  (top_artists_by_time data).foldl (fun acc p => acc ++ lookup p.1) []

/-- The spec's canonical duplicate pair: two records identical in
`(endTime, artistName, trackName)` with `msPlayed` 1000 and 5000. -/
def sampleDup : List RawRecord :=
  [⟨"2023-10-21 13:12", "Quevedo", "Playa del Ingles", 1000⟩,
   ⟨"2023-10-21 13:12", "Quevedo", "Playa del Ingles", 5000⟩]

/-- A two-record history with pairwise distinct key triples. -/
def sampleNoDup : List RawRecord :=
  [⟨"2023-10-21 13:12", "Quevedo", "Playa del Ingles", 1000⟩,
   ⟨"2023-10-21 13:15", "Quevedo", "Columbia", 5000⟩]

/-- Builds a cleaned record with the given artist, track and duration. -/
def mkClean (a t : String) (ms : Int) : CleanRecord :=
  ⟨"e", a, t, ms, 0, ms.fdiv 60000⟩

/-- Eleven artists: B01 .. B10 each with one track and a large total duration,
C with two one-millisecond tracks.  The by-duration top 10 excludes C; the
by-distinct-tracks top 10 ranks C first. -/
def c7sample : List CleanRecord :=
  [mkClean "B01" "t" 100000, mkClean "B02" "t" 100000, mkClean "B03" "t" 100000,
   mkClean "B04" "t" 100000, mkClean "B05" "t" 100000, mkClean "B06" "t" 100000,
   mkClean "B07" "t" 100000, mkClean "B08" "t" 100000, mkClean "B09" "t" 100000,
   mkClean "B10" "t" 100000, mkClean "C" "u1" 1, mkClean "C" "u2" 1]

/-- Genre table for `c7sample`: only artist C has a genre. -/
def c7lookup : String → List String :=
  fun a => if a = "C" then ["reggaeton"] else []

/-- One artist, track T1 played twice and track T2 once. -/
def c8sample : List CleanRecord :=
  [mkClean "A" "T1" 1000, mkClean "A" "T1" 2000, mkClean "A" "T2" 3000]

/-- Search items for the catalog-lookup witnesses: a near-miss first, then two
exact matches. -/
def demoItems : List ArtistMeta :=
  [⟨"Quevedo Tribute", [], []⟩, ⟨"Quevedo", ["u1"], ["urbano"]⟩,
   ⟨"Quevedo", [], ["trap"]⟩]

/-- The first cleaned record the loader produces from `sampleDup` under the
constant-zero timestamp parser (the loader keeps both rows of the pair). -/
def sampleDupClean0 : CleanRecord :=
  ⟨"2023-10-21 13:12", "Quevedo", "Playa del Ingles", 1000, 0, 0⟩

/-! ## Claim theorems: the history loader -/

/-- C1: the spec claims that for the canonical two-record duplicate history
(msPlayed 1000 and 5000, identical key triple) the loader keeps exactly one
record, the one with msPlayed 5000.  Evaluating the loader: `idxmin` selects
index label 0, and the drop filter compares msPlayed VALUES against that index
label, so nothing matches and BOTH records survive, for every timestamp
parser. -/
theorem c1_loader_keeps_both_duplicates (parse : String → Int) :
    (load_history_file parse sampleDup).length = 2 ∧
    (load_history_file parse sampleDup).map (fun r => r.msPlayed) = [1000, 5000] :=
  ⟨rfl, rfl⟩

/-- C2: the spec's invariant says that after deduplication at most one record
per (artistName, trackName, endTime) triple survives.  On the canonical
duplicate pair the loader's output still contains two records with the very
same triple, for every timestamp parser. -/
theorem c2_duplicate_triple_survives_twice (parse : String → Int) :
    2 ≤ (load_history_file parse sampleDup).countP
      (fun r => (r.artistName, r.trackName, r.endTime) ==
        ("Quevedo", "Playa del Ingles", "2023-10-21 13:12")) := by
  have h : (load_history_file parse sampleDup).countP
      (fun r => (r.artistName, r.trackName, r.endTime) ==
        ("Quevedo", "Playa del Ingles", "2023-10-21 13:12")) = 2 := rfl
  omega

/-- C3, counterexample: the claim says the dedup step removes exactly the
records whose msPlayed equals the minimal msPlayed VALUE of some duplicate
group.  On the canonical pair that reading would keep only the 5000-ms record
(`specDedupByValue`), but the code's dedup step keeps both, because it
compares msPlayed values against the index labels returned by `idxmin`. -/
theorem c3_counterexample_value_vs_index :
    (dedupStep sampleDup).map (fun r => r.msPlayed) = [1000, 5000] ∧
    (specDedupByValue sampleDup).map (fun r => r.msPlayed) = [5000] := by
  decide

/-- C4: every record produced by the loader has
`minPlayed = msPlayed // 60000` (floor division), nonnegative whenever
msPlayed is. -/
theorem c4_minPlayed_floor_division (parse : String → Int) (rows : List RawRecord)
    (r : CleanRecord) (h : r ∈ load_history_file parse rows) :
    r.minPlayed = r.msPlayed.fdiv 60000 ∧ (0 ≤ r.msPlayed → 0 ≤ r.minPlayed) := by
  rw [load_history_file, List.mem_map] at h
  obtain ⟨s, -, rfl⟩ := h
  exact ⟨rfl, fun h0 => Int.fdiv_nonneg h0 (by norm_num)⟩

/-- Witness for C4 at the concrete loader output on the canonical pair. -/
theorem c4_minPlayed_floor_division_witness :
    sampleDupClean0.minPlayed = sampleDupClean0.msPlayed.fdiv 60000 ∧
    (0 ≤ sampleDupClean0.msPlayed → 0 ≤ sampleDupClean0.minPlayed) :=
  c4_minPlayed_floor_division (fun _ => 0) sampleDup sampleDupClean0 (by decide)

/-! ## Claim theorems: the catalog lookup -/

/-- The matching loop returns the empty result exactly when no item's name
equals the searched name. -/
theorem searchItems_eq_none_iff (artist_name : String) (items : List ArtistMeta) :
    searchItems artist_name items = none ↔ ∀ a ∈ items, a.name ≠ artist_name := by
  induction items with
  | nil => simp [searchItems]
  | cons art rest ih =>
      by_cases h : art.name = artist_name
      · simp [searchItems, h]
      · simp [searchItems, h, ih]

/-- A successful match of the loop is an exact match occurring at a position
before which no item matches. -/
theorem searchItems_eq_some_first (artist_name : String) (items : List ArtistMeta)
    (art : ArtistMeta) (h : searchItems artist_name items = some art) :
    art.name = artist_name ∧
    ∃ k : Nat, items[k]? = some art ∧
      ∀ (j : Nat) (b : ArtistMeta), j < k → items[j]? = some b →
        b.name ≠ artist_name := by
  induction items with
  | nil => simp [searchItems] at h
  | cons a rest ih =>
      by_cases ha : a.name = artist_name
      · rw [searchItems, if_pos ha] at h
        obtain rfl : a = art := Option.some.inj h
        exact ⟨ha, 0, by simp, fun j b hj => absurd hj (by omega)⟩
      · rw [searchItems, if_neg ha] at h
        obtain ⟨hname, k, hk, hfirst⟩ := ih h
        refine ⟨hname, k + 1, by simpa using hk, ?_⟩
        intro j b hj hjb
        cases j with
        | zero =>
            obtain rfl : a = b := Option.some.inj (by simpa using hjb)
            exact ha
        | succ j =>
            exact hfirst j b (by omega) (by simpa using hjb)

/-- C5: on a well-formed response, `search_artist` returns the empty metadata
object (not an error) exactly when no item's name equals the input under plain
case-sensitive string equality, and any returned item is an exact match
occurring at the earliest matching position of the server-provided order. -/
theorem c5_search_artist_first_exact_match (artist_name : String)
    (items : List ArtistMeta) :
    (search_artist artist_name (some items) = Except.ok none ↔
      ∀ a ∈ items, a.name ≠ artist_name) ∧
    (∀ art, search_artist artist_name (some items) = Except.ok (some art) →
      art.name = artist_name ∧
      ∃ k : Nat, items[k]? = some art ∧
        ∀ (j : Nat) (b : ArtistMeta), j < k → items[j]? = some b →
          b.name ≠ artist_name) := by
  constructor
  · simpa [search_artist] using searchItems_eq_none_iff artist_name items
  · intro art h
    exact searchItems_eq_some_first artist_name items art
      (by simpa [search_artist] using h)

/-- Witness for C5: a name matching no item in the demo list yields the empty
result. -/
theorem c5_search_artist_first_exact_match_witness :
    search_artist "Queen" (some demoItems) = Except.ok none :=
  (c5_search_artist_first_exact_match "Queen" demoItems).1.mpr (by decide)

/-- C6, counterexample: the claim says a failed request yields an empty
result; on a response body lacking the `artists.items` structure (the error
body of a failed or unauthorised request), `search_artist` instead raises — it
returns the uncaught `KeyError`, not the empty result. -/
theorem c6_counterexample_error_propagates :
    search_artist "Quevedo" none = Except.error "KeyError: artists" ∧
    search_artist "Quevedo" none ≠ Except.ok none :=
  ⟨rfl, fun h => Except.noConfusion h⟩

/-- C6, amended: `search_artist` raises exactly on the malformed (failure)
response bodies; it never converts a failure into an empty result. -/
theorem c6_amended_error_iff_malformed (artist_name : String)
    (response : Option (List ArtistMeta)) :
    (∃ e, search_artist artist_name response = Except.error e) ↔
      response = none := by
  cases response <;> simp [search_artist]

/-- Witness for the amended C6 at a concrete failing response. -/
theorem c6_amended_error_iff_malformed_witness :
    ∃ e, search_artist "Quevedo" none = Except.error e :=
  (c6_amended_error_iff_malformed "Quevedo" none).mpr rfl

/-! ## Claim theorems: the session cache -/

/-- Once a name is memoised, later calls leave its request count unchanged
(and it stays memoised). -/
theorem runSearches_count_of_cached (fetch : String → Option (List ArtistMeta))
    (name : String) :
    ∀ (names : List String) (s : CacheState), s.table.lookup name ≠ none →
      (runSearches fetch names s).table.lookup name ≠ none ∧
      (runSearches fetch names s).requestLog.count name =
        s.requestLog.count name
  | [], s, h => ⟨h, rfl⟩
  | n :: ns, s, h => by
      rw [runSearches]
      rcases hl : s.table.lookup n with - | v
      · have hne : (name == n) = false := by
          rcases hb : name == n with - | -
          · rfl
          · exact absurd (hl ▸ (eq_of_beq hb) ▸ rfl : s.table.lookup name = none) h
        have h2 : ((⟨(n, search_artist n (fetch n)) :: s.table,
            n :: s.requestLog⟩ : CacheState)).table.lookup name ≠ none := by
          simpa [List.lookup, hne] using h
        have := runSearches_count_of_cached fetch name ns
          ⟨(n, search_artist n (fetch n)) :: s.table, n :: s.requestLog⟩ h2
        simpa [cachedSearchArtist, hl, List.count_cons,
          show (n == name) = false by simpa [BEq.comm] using hne] using this
      · simpa [cachedSearchArtist, hl] using
          runSearches_count_of_cached fetch name ns s h

/-- From a state where a name is unmemoised and unrequested, any call sequence
requests it at most once. -/
theorem runSearches_count_le_one (fetch : String → Option (List ArtistMeta))
    (name : String) :
    ∀ (names : List String) (s : CacheState), s.table.lookup name = none →
      s.requestLog.count name = 0 →
      (runSearches fetch names s).requestLog.count name ≤ 1
  | [], s, _, h0 => by simp [runSearches, h0]
  | n :: ns, s, hl, h0 => by
      rw [runSearches]
      rcases hn : s.table.lookup n with - | v
      · by_cases he : n = name
        · subst he
          have h2 : ((⟨(n, search_artist n (fetch n)) :: s.table,
              n :: s.requestLog⟩ : CacheState)).table.lookup n ≠ none := by
            simp [List.lookup]
          have hc := (runSearches_count_of_cached fetch n ns
            ⟨(n, search_artist n (fetch n)) :: s.table, n :: s.requestLog⟩ h2).2
          simpa [cachedSearchArtist, hn, List.count_cons, h0] using hc.le
        · have hne : (name == n) = false := by
            rcases hb : name == n with - | -
            · rfl
            · exact absurd (eq_of_beq hb).symm he
          have h2 : ((⟨(n, search_artist n (fetch n)) :: s.table,
              n :: s.requestLog⟩ : CacheState)).table.lookup name = none := by
            simpa [List.lookup, hne] using hl
          have h3 : ((⟨(n, search_artist n (fetch n)) :: s.table,
              n :: s.requestLog⟩ : CacheState)).requestLog.count name = 0 := by
            simpa [List.count_cons,
              show (n == name) = false by simpa [BEq.comm] using hne] using h0
          simpa [cachedSearchArtist, hn] using
            runSearches_count_le_one fetch name ns
              ⟨(n, search_artist n (fetch n)) :: s.table, n :: s.requestLog⟩ h2 h3
      · simpa [cachedSearchArtist, hn] using
          runSearches_count_le_one fetch name ns s hl h0

/-- C9: within one session, any sequence of cached `search_artist` calls
issues at most one network request per artist name, whatever the transport
returns. -/
theorem c9_at_most_one_request_per_name
    (fetch : String → Option (List ArtistMeta)) (names : List String)
    (name : String) :
    (runSearches fetch names emptyCache).requestLog.count name ≤ 1 :=
  runSearches_count_le_one fetch name names emptyCache rfl rfl

/-! ## Claim theorems: loader on duplicate-free histories -/

/-- Under pairwise-distinct key triples every key occurs in at most one row. -/
theorem countP_keyTriple_le_one (rows : List RawRecord)
    (h : rows.Pairwise (fun a b => keyTriple a ≠ keyTriple b)) (r : RawRecord) :
    rows.countP (fun q => keyTriple q == keyTriple r) ≤ 1 := by
  induction rows with
  | nil => simp
  | cons a t ih =>
      obtain ⟨ha, ht⟩ := List.pairwise_cons.mp h
      rw [List.countP_cons]
      by_cases hk : keyTriple a = keyTriple r
      · have hz : t.countP (fun q => keyTriple q == keyTriple r) = 0 := by
          rw [List.countP_eq_zero]
          intro b hb
          simp only [beq_iff_eq]
          exact fun hbe => (ha b hb) (hbe ▸ hk)
        simp [hz, hk]
      · simp only [beq_iff_eq, hk]
        simpa using ih ht

/-- Under pairwise-distinct key triples, `duplicated(keep=False)` marks no
row. -/
theorem dupRows_eq_nil_of_distinct_keys (rows : List RawRecord)
    (h : rows.Pairwise (fun a b => keyTriple a ≠ keyTriple b)) :
    dupRows rows = [] := by
  rw [dupRows, List.filter_eq_nil_iff]
  rintro ⟨i, r⟩ hp
  have hcount := countP_keyTriple_le_one rows h r
  simp only [decide_eq_true_eq]
  omega

/-- C10: on a history with pairwise-distinct key triples the loader removes
nothing — the output is exactly the input records in order, with their four
fields unchanged and only the derived `playDate` and `minPlayed` columns
added. -/
theorem c10_distinct_keys_loader_identity (parse : String → Int)
    (rows : List RawRecord)
    (h : rows.Pairwise (fun a b => keyTriple a ≠ keyTriple b)) :
    load_history_file parse rows = rows.map (fun r =>
      { endTime := r.endTime, artistName := r.artistName,
        trackName := r.trackName, msPlayed := r.msPlayed,
        playDate := parse r.endTime,
        minPlayed := r.msPlayed.fdiv 60000 }) := by
  have h1 : dupRows rows = [] := dupRows_eq_nil_of_distinct_keys rows h
  have h2 : min_duracion rows = [] := by rw [min_duracion, h1]; rfl
  rw [load_history_file, dedupStep, h2]
  simp

/-- Witness for C10 on a concrete duplicate-free history. -/
theorem c10_distinct_keys_loader_identity_witness :
    load_history_file (fun _ => 7) sampleNoDup = sampleNoDup.map (fun r =>
      { endTime := r.endTime, artistName := r.artistName,
        trackName := r.trackName, msPlayed := r.msPlayed,
        playDate := 7, minPlayed := r.msPlayed.fdiv 60000 }) :=
  c10_distinct_keys_loader_identity (fun _ => 7) sampleNoDup (by decide)

/-! ## The dedup step, characterised -/

/-- Membership in the duplicated-rows selection. -/
theorem mem_dupRows_iff (rows : List RawRecord) (i : Nat) (r : RawRecord) :
    (i, r) ∈ dupRows rows ↔
      rows[i]? = some r ∧
        2 ≤ rows.countP (fun q => keyTriple q == keyTriple r) := by
  rw [dupRows, List.mem_filter, indexedRows, List.mk_mem_enum_iff_getElem?,
    decide_eq_true_eq]

/-- Membership in one duplicate-key group. -/
theorem mem_groupRows_iff (rows : List RawRecord) (k : String × String × String)
    (i : Nat) (r : RawRecord) :
    (i, r) ∈ groupRows rows k ↔
      rows[i]? = some r ∧
        2 ≤ rows.countP (fun q => keyTriple q == keyTriple r) ∧
        keyTriple r = k := by
  rw [groupRows, List.mem_filter, mem_dupRows_iff, beq_iff_eq, and_assoc]

/-- A duplicate-key group is a subsequence of the indexed table. -/
theorem groupRows_sublist_enum (rows : List RawRecord)
    (k : String × String × String) : (groupRows rows k).Sublist rows.enum := by
  rw [groupRows, dupRows, indexedRows]
  exact (List.filter_sublist _).trans (List.filter_sublist _)

/-- The indexed table carries strictly increasing index labels. -/
theorem pairwise_fst_lt_enum {α : Type} (l : List α) :
    l.enum.Pairwise (fun a b => a.1 < b.1) := by
  rw [List.pairwise_iff_getElem]
  intro i j hi hj hij
  rw [List.getElem_enum, List.getElem_enum]
  exact hij

/-- So does each duplicate-key group. -/
theorem pairwise_fst_lt_groupRows (rows : List RawRecord)
    (k : String × String × String) :
    (groupRows rows k).Pairwise (fun a b => a.1 < b.1) :=
  (pairwise_fst_lt_enum rows).sublist (groupRows_sublist_enum rows k)

/-- In a list with strictly increasing labels, an element satisfying the
predicate and preceded by no satisfying element is what `find?` returns. -/
theorem find?_eq_some_of_first {α : Type} (pred : Nat × α → Bool) :
    ∀ (l : List (Nat × α)) (a : Nat × α), l.Pairwise (fun x y => x.1 < y.1) →
      a ∈ l → pred a = true → (∀ b ∈ l, b.1 < a.1 → pred b = false) →
      l.find? pred = some a
  | [], a, _, ha, _, _ => absurd ha (List.not_mem_nil a)
  | x :: t, a, hpw, ha, hpa, hfirst => by
      rcases List.mem_cons.mp ha with rfl | hat
      · rw [List.find?_cons_of_pos _ hpa]
      · have hx : x.1 < a.1 := (List.pairwise_cons.mp hpw).1 a hat
        have hpx : pred x = false := hfirst x (List.mem_cons_self x t) hx
        rw [List.find?_cons_of_neg _ (by simp [hpx])]
        exact find?_eq_some_of_first pred t a (List.pairwise_cons.mp hpw).2 hat hpa
          (fun b hb hlt => hfirst b (List.mem_cons_of_mem x hb) hlt)

/-- Conversely, under strictly increasing labels `find?` returns a satisfying
element preceded by no satisfying element. -/
theorem find?_eq_some_first_props {α : Type} (pred : Nat × α → Bool) :
    ∀ (l : List (Nat × α)) (a : Nat × α), l.Pairwise (fun x y => x.1 < y.1) →
      l.find? pred = some a →
      a ∈ l ∧ pred a = true ∧ ∀ b ∈ l, b.1 < a.1 → pred b = false
  | [], a, _, h => by simp [List.find?] at h
  | x :: t, a, hpw, h => by
      cases hpx : pred x with
      | false =>
          rw [List.find?_cons_of_neg _ (by simp [hpx])] at h
          obtain ⟨hat, hpa, hfirst⟩ := find?_eq_some_first_props pred t a
            (List.pairwise_cons.mp hpw).2 h
          refine ⟨List.mem_cons_of_mem x hat, hpa, ?_⟩
          intro b hb hlt
          rcases List.mem_cons.mp hb with rfl | hbt
          · exact hpx
          · exact hfirst b hbt hlt
      | true =>
          rw [List.find?_cons_of_pos _ hpx] at h
          obtain rfl := Option.some.inj h
          refine ⟨List.mem_cons_self x t, hpx, ?_⟩
          intro b hb hlt
          rcases List.mem_cons.mp hb with rfl | hbt
          · exact absurd hlt (lt_irrefl _)
          · exact absurd hlt
              (by have := (List.pairwise_cons.mp hpw).1 b hbt; omega)

/-- The positional characterization, in propositional form: position `i`
holds a row of a duplicate group whose `msPlayed` is minimal for its key, no
earlier same-key position attaining the minimum. -/
theorem isFirstGroupMin_iff (rows : List RawRecord) (i : Nat) :
    isFirstGroupMin rows i = true ↔
      ∃ r, rows[i]? = some r ∧
        2 ≤ rows.countP (fun q => keyTriple q == keyTriple r) ∧
        ∀ (j : Nat) (s : RawRecord), rows[j]? = some s →
          keyTriple s = keyTriple r →
          r.msPlayed ≤ s.msPlayed ∧ (j < i → r.msPlayed < s.msPlayed) := by
  cases hget : rows[i]? with
  | none => simp [isFirstGroupMin, hget]
  | some r =>
      simp only [isFirstGroupMin, hget, Bool.and_eq_true, List.all_eq_true,
        decide_eq_true_eq, Option.some.injEq]
      constructor
      · rintro ⟨h1, h2⟩
        refine ⟨r, rfl, h1, ?_⟩
        intro j s hj hk
        have hmem : (j, s) ∈ indexedRows rows := by
          rw [indexedRows, List.mk_mem_enum_iff_getElem?]; exact hj
        have hb := h2 (j, s) hmem
        simp only [hk, beq_self_eq_true, Bool.not_true, Bool.false_or,
          Bool.and_eq_true, Bool.or_eq_true, Bool.not_eq_true',
          decide_eq_true_eq, decide_eq_false_iff_not] at hb
        exact ⟨hb.1, fun hlt => hb.2.resolve_left (fun hn => hn hlt)⟩
      · rintro ⟨r', hrr, h1, h2⟩
        subst hrr
        refine ⟨h1, ?_⟩
        rintro ⟨j, s⟩ hmem
        rw [indexedRows, List.mk_mem_enum_iff_getElem?] at hmem
        by_cases hk : keyTriple s = keyTriple r
        · have hjs := h2 j s hmem hk
          simp only [hk, beq_self_eq_true, Bool.not_true, Bool.false_or,
            Bool.and_eq_true, Bool.or_eq_true, Bool.not_eq_true',
            decide_eq_true_eq, decide_eq_false_iff_not]
          refine ⟨hjs.1, ?_⟩
          by_cases hj : j < i
          · exact Or.inr (hjs.2 hj)
          · exact Or.inl hj
        · simp [hk]

/-- A position selected by the characterization is inside the table. -/
theorem isFirstGroupMin_lt_length {rows : List RawRecord} {i : Nat}
    (h : isFirstGroupMin rows i = true) : i < rows.length := by
  obtain ⟨r, hr, -, -⟩ := (isFirstGroupMin_iff rows i).mp h
  obtain ⟨hlt, -⟩ := List.getElem?_eq_some.mp hr
  exact hlt

/-- The index labels produced by the grouped `idxmin` pipeline are exactly the
positions satisfying the positional characterization. -/
theorem mem_min_duracion_iff (rows : List RawRecord) (i : Nat) :
    i ∈ min_duracion rows ↔ isFirstGroupMin rows i = true := by
  rw [min_duracion, List.mem_filterMap]
  constructor
  · rintro ⟨k, -, hgm⟩
    rw [groupIdxmin, Option.map_eq_some'] at hgm
    obtain ⟨p, hfind, hfst⟩ := hgm
    obtain ⟨hpg, hpred, hfirst⟩ := find?_eq_some_first_props _ _ p
      (pairwise_fst_lt_groupRows rows k) hfind
    obtain ⟨hget, hcnt, hkey⟩ := (mem_groupRows_iff rows k p.1 p.2).mp hpg
    subst hfst
    rw [isFirstGroupMin_iff]
    refine ⟨p.2, hget, hcnt, ?_⟩
    intro j s hj hk2
    have hjcnt : 2 ≤ rows.countP (fun q => keyTriple q == keyTriple s) := by
      rw [hk2]; exact hcnt
    have hjg : (j, s) ∈ groupRows rows k :=
      (mem_groupRows_iff rows k j s).mpr ⟨hj, hjcnt, hk2.trans hkey⟩
    constructor
    · have := (List.all_eq_true.mp hpred) (j, s) hjg
      simpa using this
    · intro hlt
      have hps := hfirst (j, s) hjg hlt
      rw [List.all_eq_false] at hps
      obtain ⟨x, hxg, hx⟩ := hps
      have hxlt : x.2.msPlayed < s.msPlayed := by
        simpa using hx
      have hple : p.2.msPlayed ≤ x.2.msPlayed := by
        have := (List.all_eq_true.mp hpred) x hxg
        simpa using this
      omega
  · intro hchar
    obtain ⟨r, hget, hcnt, hmin⟩ := (isFirstGroupMin_iff rows i).mp hchar
    refine ⟨keyTriple r, ?_, ?_⟩
    · rw [List.mem_dedup, List.mem_map]
      exact ⟨(i, r), (mem_dupRows_iff rows i r).mpr ⟨hget, hcnt⟩, rfl⟩
    · rw [groupIdxmin]
      have hfind : (groupRows rows (keyTriple r)).find?
          (fun p => (groupRows rows (keyTriple r)).all
            (fun q => decide (p.2.msPlayed ≤ q.2.msPlayed))) = some (i, r) := by
        apply find?_eq_some_of_first _ _ _
          (pairwise_fst_lt_groupRows rows (keyTriple r))
        · exact (mem_groupRows_iff rows (keyTriple r) i r).mpr ⟨hget, hcnt, rfl⟩
        · rw [List.all_eq_true]
          rintro ⟨j, s⟩ hjg
          obtain ⟨hjget, -, hjkey⟩ := (mem_groupRows_iff rows _ j s).mp hjg
          exact decide_eq_true ((hmin j s hjget hjkey).1)
        · rintro ⟨j, s⟩ hjg hlt
          obtain ⟨hjget, -, hjkey⟩ := (mem_groupRows_iff rows _ j s).mp hjg
          rw [List.all_eq_false]
          refine ⟨(i, r), (mem_groupRows_iff rows _ i r).mpr ⟨hget, hcnt, rfl⟩, ?_⟩
          have := (hmin j s hjget hjkey).2 hlt
          simp only [decide_eq_true_eq]
          omega
      rw [hfind]
      rfl

/-- C3, amended: the dedup step removes exactly the records whose `msPlayed`
VALUE coincides numerically with one of the INDEX LABELS selected by the
grouped `idxmin` — the position of the first minimal-duration row of some
duplicate-key group — applied globally across the table.  It does not remove
records by comparing against the groups' minimal `msPlayed` values. -/
theorem c3_amended_removal_matches_idxmin_labels (rows : List RawRecord) :
    dedupStep rows = rows.filter
      (fun r => !((List.range rows.length).any
        (fun i => isFirstGroupMin rows i && ((i : Int) == r.msPlayed)))) := by
  rw [dedupStep]
  apply List.filter_congr
  intro r hr
  congr 1
  rw [Bool.eq_iff_iff, List.elem_iff, List.any_eq_true]
  simp only [List.mem_map, List.mem_range, Bool.and_eq_true, beq_iff_eq,
    mem_min_duracion_iff]
  constructor
  · rintro ⟨i, hchar, hi⟩
    exact ⟨i, isFirstGroupMin_lt_length hchar, hchar, hi⟩
  · rintro ⟨i, -, hchar, hi⟩
    exact ⟨i, hchar, hi⟩

/-! ## Claim theorems: aggregation and presentation -/

/-- Counting occurrences across an append-accumulating fold. -/
theorem count_foldl_append {α : Type} (f : α → List String) (g : String) :
    ∀ (l : List α) (acc : List String),
      (l.foldl (fun a x => a ++ f x) acc).count g =
        acc.count g + (l.map (fun x => (f x).count g)).sum
  | [], acc => by simp
  | x :: t, acc => by
      rw [List.foldl_cons, count_foldl_append f g t (acc ++ f x), List.count_append,
        List.map_cons, List.sum_cons]
      omega

/-- C7, amended: the genre frequency displayed by the presentation layer
counts, for every genre, the occurrences contributed by the artists of the
top-10-by-distinct-track-count ranking (the last value assigned to
`top_artists`), one contribution per occurrence in each artist's genre list. -/
theorem c7_amended_genres_follow_by_distinct_ranking (data : List CleanRecord)
    (lookup : String → List String) (g : String) :
    (generos data lookup).count g =
      ((top_artists_by_distinct data).map (fun p => (lookup p.1).count g)).sum := by
  rw [generos, count_foldl_append]
  simp

/-- C7, counterexample: on `c7sample` the by-duration and by-distinct-tracks
top-10 rankings select different artist sets, and the displayed genre count
follows the latter: `reggaeton` (carried only by artist C, absent from the
by-duration top 10) is counted once by the code but would be absent under the
claimed by-duration reading. -/
theorem c7_counterexample_ranking_mismatch :
    (generos c7sample c7lookup).count "reggaeton" = 1 ∧
    (specGenerosByTime c7sample c7lookup).count "reggaeton" = 0 := by
  exact ⟨by decide, by decide⟩

/-- A descending-sorted ten-row head: the source's
`sort_values(ascending=False).head(10)` yields at most ten rows whose metric
column is non-increasing. -/
theorem sorted_desc_head10_snd {α β : Type} [LinearOrder β] (tbl : List (α × β)) :
    ((tbl.insertionSort (fun x y => y.2 ≤ x.2)).take 10).length ≤ 10 ∧
    ((((tbl.insertionSort (fun x y => y.2 ≤ x.2)).take 10).map
      (fun p => p.2)).Sorted (fun a b => b ≤ a)) := by
  constructor
  · rw [List.length_take]
    exact min_le_left _ _
  · rw [List.Sorted, List.pairwise_map]
    have hs : (tbl.insertionSort (fun x y => y.2 ≤ x.2)).Pairwise
        (fun x y => y.2 ≤ x.2) := by
      haveI : IsTotal (α × β) (fun x y => y.2 ≤ x.2) := ⟨fun a b => le_total b.2 a.2⟩
      haveI : IsTrans (α × β) (fun x y => y.2 ≤ x.2) :=
        ⟨fun a b c h1 h2 => le_trans h2 h1⟩
      exact List.sorted_insertionSort _ tbl
    exact List.Pairwise.sublist (List.take_sublist 10 _) hs

/-- An ascending-sorted ten-row tail: the source's
`sort_values(ascending=True).tail(10)` yields at most ten rows whose metric
column is non-decreasing. -/
theorem sorted_asc_tail10_snd {α β : Type} [LinearOrder β] (tbl : List (α × β)) :
    ((tbl.insertionSort (fun x y => x.2 ≤ y.2)).drop
      ((tbl.insertionSort (fun x y => x.2 ≤ y.2)).length - 10)).length ≤ 10 ∧
    ((((tbl.insertionSort (fun x y => x.2 ≤ y.2)).drop
      ((tbl.insertionSort (fun x y => x.2 ≤ y.2)).length - 10)).map
        (fun p => p.2)).Sorted (fun a b => a ≤ b)) := by
  constructor
  · rw [List.length_drop]
    omega
  · rw [List.Sorted, List.pairwise_map]
    have hs : (tbl.insertionSort (fun x y => x.2 ≤ y.2)).Pairwise
        (fun x y => x.2 ≤ y.2) := by
      haveI : IsTotal (α × β) (fun x y => x.2 ≤ y.2) := ⟨fun a b => le_total a.2 b.2⟩
      haveI : IsTrans (α × β) (fun x y => x.2 ≤ y.2) :=
        ⟨fun a b c h1 h2 => le_trans h1 h2⟩
      exact List.sorted_insertionSort _ tbl
    exact List.Pairwise.sublist (List.drop_sublist _ _) hs

/-- C8, amended: each ranking holds at most ten entries; the three artist
rankings are ordered with non-increasing metric, while the track ranking is
ordered with NON-DECREASING metric (the ten largest counts, smallest first,
as produced by `ascending=True` followed by `tail(10)`); the relative order
of metric ties is whatever the underlying sort produces. -/
theorem c8_amended_ranking_shape (data : List CleanRecord) :
    ((top_songs data).length ≤ 10 ∧
      ((top_songs data).map (fun p => p.2)).Sorted (fun a b => a ≤ b)) ∧
    ((top_artists_by_count data).length ≤ 10 ∧
      ((top_artists_by_count data).map (fun p => p.2)).Sorted (fun a b => b ≤ a)) ∧
    ((top_artists_by_time data).length ≤ 10 ∧
      ((top_artists_by_time data).map (fun p => p.2)).Sorted (fun a b => b ≤ a)) ∧
    ((top_artists_by_distinct data).length ≤ 10 ∧
      ((top_artists_by_distinct data).map (fun p => p.2)).Sorted
        (fun a b => b ≤ a)) := by
  refine ⟨?_, ?_, ?_, ?_⟩
  · simpa only [top_songs] using
      sorted_asc_tail10_snd ((songKeys data).map (fun k => (k, songPlayCount data k)))
  · simpa only [top_artists_by_count] using
      sorted_desc_head10_snd
        ((artistKeys data).map (fun a => (a, artistPlayCount data a)))
  · simpa only [top_artists_by_time] using
      sorted_desc_head10_snd
        ((artistKeys data).map (fun a => (a, artistTotalMs data a)))
  · simpa only [top_artists_by_distinct] using
      sorted_desc_head10_snd
        ((artistKeys data).map (fun a => (a, artistDistinctTracks data a)))

/-- C8, counterexample: the claim says every ranking is ordered descending by
its metric; on `c8sample` the track ranking comes out as counts `[1, 2]`,
which is not descending. -/
theorem c8_counterexample_top_songs_ascending :
    ((top_songs c8sample).map (fun p => p.2)) = [1, 2] ∧
    ¬ (((top_songs c8sample).map (fun p => p.2)).Sorted (fun a b => b ≤ a)) := by
  exact ⟨by decide, by decide⟩
